import Mathlib

/-!
Verification of the actuarial/financial computation engine of
`projet-actuariat` against its specification.

The loan amortization engine (`loan_core.py`, two variants) is embedded over
`ℚ`: Python's binary floating point is idealized as exact rational
arithmetic, and Python's `round(x, 2)` is modelled as rounding to the nearest
multiple of `1/100` (the claims under verification do not depend on the
behaviour at exact half-cent ties).

The mortality conversion and premium pricing functions (`app.py`) use
`exp`, `log` and real powers, and are embedded over `ℝ`.
-/

/-- `round(x, 2)` of the source: round to the nearest multiple of 1/100. -/
def round2 (x : ℚ) : ℚ := ((round (100 * x) : ℤ) : ℚ) / 100

/-- One row of the amortization schedule of
`ProjetActuariat/loan_core.py` (`Mois`, `Valeur mensualité`, `Intérêts`,
`Capital remboursé`, `CRD`). -/
structure Row where
  mois : ℕ
  valeurMensualite : ℚ
  interets : ℚ
  capitalRemb : ℚ
  crd : ℚ
deriving DecidableEq

instance : Inhabited Row := ⟨⟨0, 0, 0, 0, 0⟩⟩

/-- The loop of `ProjetActuariat/loan_core.py::tableau_amortissement`
(lines 28–49): `rowsAux im p k m crd` produces the rows for the `k`
remaining months starting at month `m` with current balance `crd`.  The
last month is overridden: `capital_remb = crd`,
`valeur_mensualite = interets + capital_remb`, `crd_next = 0`. -/
def rowsAux (im p : ℚ) : ℕ → ℕ → ℚ → List Row
  | 0, _, _ => []
  | 1, m, crd => [⟨m, crd * im + crd, crd * im, crd, 0⟩]
  | k + 2, m, crd =>
      ⟨m, p, crd * im, p - crd * im, crd - (p - crd * im)⟩ ::
        rowsAux im p (k + 1) (m + 1) (crd - (p - crd * im))

/-- The monthly payment of `ProjetActuariat/loan_core.py` (lines 17–23):
branch on `abs(i_m) < 1e-12`, then round to 2 decimals. -/
def mensualiteOf (capital : ℚ) (nMois : ℕ) (im : ℚ) : ℚ :=
  round2 (if |im| < 1 / 10 ^ 12 then capital / nMois
          else capital * (im / (1 - (1 + im) ^ (-(nMois : ℤ)))))

/-- The per-row display rounding `df[cols].round(2)` of
`ProjetActuariat/loan_core.py` line 53. -/
def roundRow (r : Row) : Row :=
  ⟨r.mois, round2 r.valeurMensualite, round2 r.interets,
   round2 r.capitalRemb, round2 r.crd⟩

/-- The unrounded schedule of `ProjetActuariat/loan_core.py` for `nMois`
months: monthly rate `taux / 12`, starting balance `capital`. -/
def rawRows (capital : ℚ) (nMois : ℕ) (taux : ℚ) : List Row :=
  rowsAux (taux / 12) (mensualiteOf capital nMois (taux / 12)) nMois 1 capital

/-- `ProjetActuariat/loan_core.py::tableau_amortissement`: validation
(`n_mois <= 0` only), payment, schedule, display rounding, and the two
totals computed from the rounded columns. -/
def tableau_amortissement (capital : ℚ) (duree_annees : ℤ) (taux_annuel : ℚ) :
    Except String (ℚ × List Row × ℚ × ℚ) :=
  if duree_annees * 12 ≤ 0 then .error "La durée doit être positive."
  else
    let n := (duree_annees * 12).toNat
    let rowsR := (rawRows capital n taux_annuel).map roundRow
    .ok (mensualiteOf capital n (taux_annuel / 12), rowsR,
         round2 ((rowsR.map Row.interets).sum),
         round2 ((rowsR.map Row.valeurMensualite).sum - capital))

/-- The running balance of the non-final recurrence of the schedule loop:
`crdAfter im p crd k` is the balance after `k` non-final months starting
from `crd` (each month: `crd ← crd - (p - crd * im)`). -/
def crdAfter (im p crd : ℚ) : ℕ → ℚ
  | 0 => crd
  | k + 1 => crdAfter im p crd k - (p - crdAfter im p crd k * im)

/-- One row of the month-0 variant `src/loan_core.py` (with the
`% intérêts dans la mensualité` column). -/
structure Row0 where
  mois : ℕ
  interets : ℚ
  capitalRemb : ℚ
  valeurMensualite : ℚ
  crd : ℚ
  pctInterets : ℚ
deriving DecidableEq

instance : Inhabited Row0 := ⟨⟨0, 0, 0, 0, 0, 0⟩⟩

/-- The loop of `src/loan_core.py::tableau_amortissement` for months
`m ≥ 1` (no last-month override). -/
def rows0Aux (tm p : ℚ) : ℕ → ℕ → ℚ → List Row0
  | 0, _, _ => []
  | k + 1, m, crd =>
      ⟨m, crd * tm, p - crd * tm, p, crd - (p - crd * tm),
        if p = 0 then 0 else round2 (crd * tm / p * 100)⟩ ::
        rows0Aux tm p k (m + 1) (crd - (p - crd * tm))

/-- The display rounding of `src/loan_core.py` line 75 (the four money
columns; the percentage column is already rounded in the loop). -/
def roundRow0 (r : Row0) : Row0 :=
  ⟨r.mois, round2 r.interets, round2 r.capitalRemb,
   round2 r.valeurMensualite, round2 r.crd, r.pctInterets⟩

/-- `src/loan_core.py::tableau_amortissement` (the month-0 variant):
validates capital, term and rate in that order, then builds the month-0
row plus the monthly rows, rounds for display, and totals the rounded
columns over months `m > 0`. -/
def tableau_amortissement_v0 (capital : ℚ) (duree_annees : ℤ) (taux_annuel : ℚ) :
    Except String (ℚ × List Row0 × ℚ × ℚ) :=
  if capital ≤ 0 then .error "Le capital doit être > 0."
  else if duree_annees ≤ 0 then .error "La durée doit être > 0."
  else if taux_annuel < 0 then .error "Le taux annuel doit être >= 0."
  else
    let n := (12 * duree_annees).toNat
    let tm := taux_annuel / 12
    let p := if tm = 0 then round2 (capital / n)
             else round2 (capital * (tm / (1 - (1 + tm) ^ (-(n : ℤ)))))
    let rowsR := ((⟨0, 0, 0, 0, capital, 0⟩ : Row0) ::
                   rows0Aux tm p n 1 capital).map roundRow0
    let body := rowsR.drop 1
    .ok (p, rowsR, round2 ((body.map Row0.interets).sum),
         round2 ((body.map Row0.valeurMensualite).sum - capital))

/-- Whether an `Except` result is a success (the calculation did not fail). -/
def isOkB {ε α : Type} : Except ε α → Bool
  | .ok _ => true
  | .error _ => false

/-- The force of mortality of `app.py` (lines 76, 90):
`mu = -log(max(1e-15, 1 - q))`. -/
noncomputable def muOf (q : ℝ) : ℝ := -Real.log (max (1 / 10 ^ 15) (1 - q))

/-- The twelve monthly death probabilities of one policy year of
`app.py::monthly_death_probs_from_annual_q` (lines 77–79), with
survival-to-year-start `S` and annual probability `q`; index `m` here is
the source's `m - 1`, so the exponents are `-mu*m/12` and `-mu*(m+1)/12`. -/
noncomputable def yearDeathProbs (S q : ℝ) : List ℝ :=
  (List.range 12).map fun m : ℕ =>
    S * (Real.exp (-muOf q * (m : ℝ) / 12) -
         Real.exp (-muOf q * ((m : ℝ) + 1) / 12))

/-- The year loop of `app.py::monthly_death_probs_from_annual_q`,
threading `surv_to_year_start`. -/
noncomputable def deathProbsAux : List ℝ → ℝ → List ℝ
  | [], _ => []
  | q :: qs, S => yearDeathProbs S q ++ deathProbsAux qs (S * (1 - q))

/-- `app.py::monthly_death_probs_from_annual_q` (lines 69–81). -/
noncomputable def monthly_death_probs_from_annual_q (q_by_year : List ℝ) : List ℝ :=
  deathProbsAux q_by_year 1

/-- The twelve start-of-month survival values of one policy year of
`app.py::monthly_survival_to_month_start_from_annual_q` (lines 91–93);
index `j` here is the source's `j - 1`, so the exponent is `-mu*(j/12)`. -/
noncomputable def yearSurvival (S q : ℝ) : List ℝ :=
  (List.range 12).map fun j : ℕ => S * Real.exp (-muOf q * (j : ℝ) / 12)

/-- The year loop of `app.py::monthly_survival_to_month_start_from_annual_q`. -/
noncomputable def survAux : List ℝ → ℝ → List ℝ
  | [], _ => []
  | q :: qs, S => yearSurvival S q ++ survAux qs (S * (1 - q))

/-- `app.py::monthly_survival_to_month_start_from_annual_q` (lines 83–95). -/
noncomputable def monthly_survival_to_month_start_from_annual_q
    (q_by_year : List ℝ) : List ℝ :=
  survAux q_by_year 1

/-- Python's `enumerate(l, start=s)`. -/
def enumF {α : Type} : ℕ → List α → List (ℕ × α)
  | _, [] => []
  | s, a :: as => (s, a) :: enumF (s + 1) as

/-- `app.py::single_premium_monthly` (lines 100–111): dimension check, then
`Σ (1+i)^(-m/12) * p_death_m * crd_m` with `m` enumerating the zipped
sequences from 1. -/
noncomputable def single_premium_monthly
    (crd_end_of_month death_probs_monthly : List ℝ) (i_annual : ℝ) :
    Except String ℝ :=
  if crd_end_of_month.length ≠ death_probs_monthly.length then
    .error "Dimensions incohérentes: CRD mensuel vs probas décès mensuelles."
  else
    .ok (((enumF 1 (crd_end_of_month.zip death_probs_monthly)).map fun x =>
            (1 + i_annual) ^ (-(x.1 : ℝ) / 12) * x.2.2 * x.2.1).sum)

/-- `app.py::pv_monthly_premiums_due` (lines 113–121):
`Σ (1+i)^(-idx/12) * s_start` with `idx` enumerating from 0. -/
noncomputable def pv_monthly_premiums_due
    (survival_to_month_start : List ℝ) (i_annual : ℝ) : ℝ :=
  ((enumF 0 survival_to_month_start).map fun x =>
    (1 + i_annual) ^ (-(x.1 : ℝ) / 12) * x.2).sum

/-! ### Basic facts about the amortization loop -/

theorem round2_zero : round2 0 = 0 := by simp [round2]

theorem round2_mono {x y : ℚ} (h : x ≤ y) : round2 x ≤ round2 y := by
  have h1 : round (100 * x) ≤ round (100 * y) := by
    rw [round_eq, round_eq]
    exact Int.floor_le_floor (by linarith)
  have h2 : ((round (100 * x) : ℤ) : ℚ) ≤ ((round (100 * y) : ℤ) : ℚ) := by
    exact_mod_cast h1
  rw [round2, round2]
  linarith

theorem abs_round2_sub (x : ℚ) : |round2 x - x| ≤ 1 / 200 := by
  have h : |100 * x - ((round (100 * x) : ℤ) : ℚ)| ≤ 1 / 2 := abs_sub_round (100 * x)
  rw [abs_le] at h
  rw [round2, abs_le]
  constructor <;> linarith [h.1, h.2]

theorem sum_map_round2 (l : List ℚ) :
    |(l.map round2).sum - l.sum| ≤ l.length * (1 / 200) := by
  induction l with
  | nil => simp
  | cons a l ih =>
      have ha := abs_round2_sub a
      have key : (((a :: l).map round2).sum - (a :: l).sum)
          = (round2 a - a) + ((l.map round2).sum - l.sum) := by
        simp only [List.map_cons, List.sum_cons]; ring
      calc |(((a :: l).map round2).sum - (a :: l).sum)|
          ≤ |round2 a - a| + |(l.map round2).sum - l.sum| := by
            rw [key]; exact abs_add _ _
        _ ≤ 1 / 200 + l.length * (1 / 200) := by linarith
        _ = (a :: l).length * (1 / 200) := by
            simp only [List.length_cons]; push_cast; ring

theorem rowsAux_length (im p : ℚ) :
    ∀ (k m : ℕ) (crd : ℚ), (rowsAux im p k m crd).length = k
  | 0, _, _ => rfl
  | 1, _, _ => rfl
  | k + 2, m, crd => by
      simp [rowsAux, rowsAux_length im p (k + 1)]

theorem rowsAux_sum_remb (im p : ℚ) :
    ∀ (k m : ℕ) (crd : ℚ),
      ((rowsAux im p (k + 1) m crd).map Row.capitalRemb).sum = crd
  | 0, m, crd => by simp [rowsAux]
  | k + 1, m, crd => by
      simp only [rowsAux, List.map_cons, List.sum_cons,
        rowsAux_sum_remb im p k (m + 1)]
      ring

theorem crdAfter_shift (im p crd : ℚ) :
    ∀ k, crdAfter im p (crd - (p - crd * im)) k = crdAfter im p crd (k + 1)
  | 0 => rfl
  | k + 1 => by
      simp only [crdAfter, crdAfter_shift im p crd k]

theorem rowsAux_getD (im p : ℚ) :
    ∀ (k j m : ℕ) (crd : ℚ), j + 1 < k →
      (rowsAux im p k m crd).getD j default =
        ⟨m + j, p, crdAfter im p crd j * im, p - crdAfter im p crd j * im,
         crdAfter im p crd (j + 1)⟩
  | 0, j, m, crd, h => by omega
  | 1, j, m, crd, h => by omega
  | k + 2, 0, m, crd, h => by
      simp [rowsAux, crdAfter]
  | k + 2, j + 1, m, crd, h => by
      have hj : j + 1 < k + 1 := by omega
      simp only [rowsAux, List.getD_cons_succ]
      rw [rowsAux_getD im p (k + 1) j (m + 1) _ hj, crdAfter_shift, crdAfter_shift]
      have hm : m + 1 + j = m + (j + 1) := by omega
      rw [hm]

theorem rowsAux_getD_last (im p : ℚ) :
    ∀ (k m : ℕ) (crd : ℚ),
      (rowsAux im p (k + 1) m crd).getD k default =
        ⟨m + k, crdAfter im p crd k * im + crdAfter im p crd k,
         crdAfter im p crd k * im, crdAfter im p crd k, 0⟩
  | 0, m, crd => by simp [rowsAux, crdAfter]
  | k + 1, m, crd => by
      simp only [rowsAux, List.getD_cons_succ]
      rw [rowsAux_getD_last im p k (m + 1), crdAfter_shift]
      have hm : m + 1 + k = m + (k + 1) := by omega
      rw [hm]

theorem rowsAux_interets_of_zero (p : ℚ) :
    ∀ (k m : ℕ) (crd : ℚ) (r : Row), r ∈ rowsAux 0 p k m crd → r.interets = 0
  | 0, _, _, _, h => by simp [rowsAux] at h
  | 1, m, crd, r, h => by
      simp only [rowsAux, List.mem_singleton] at h
      subst h; simp
  | k + 2, m, crd, r, h => by
      simp only [rowsAux, List.mem_cons] at h
      rcases h with h | h
      · subst h; simp
      · exact rowsAux_interets_of_zero p (k + 1) (m + 1) _ r h

theorem getD_map_roundRow :
    ∀ (l : List Row) (j : ℕ), j < l.length →
      (l.map roundRow).getD j default = roundRow (l.getD j default)
  | [], j, h => by simp at h
  | r :: l, 0, _ => by simp
  | r :: l, j + 1, h => by
      simp only [List.map_cons, List.getD_cons_succ]
      exact getD_map_roundRow l j (by simpa using h)

theorem rowsAux_chain_dropLast (im p : ℚ) (him : 0 ≤ im) :
    ∀ (k m : ℕ) (crd : ℚ), crd * im ≤ p →
      List.Chain' (· ≥ ·) (crd :: ((rowsAux im p k m crd).map Row.crd).dropLast)
  | 0, m, crd, _ => by simp [rowsAux]
  | 1, m, crd, _ => by simp [rowsAux]
  | k + 2, m, crd, h => by
      have hstep : crd - (p - crd * im) ≤ crd := by linarith
      have hnext : (crd - (p - crd * im)) * im ≤ p :=
        le_trans (mul_le_mul_of_nonneg_right hstep him) h
      have ih := rowsAux_chain_dropLast im p him (k + 1) (m + 1) _ hnext
      have hlen := rowsAux_length im p (k + 1) (m + 1) (crd - (p - crd * im))
      rcases hrest : rowsAux im p (k + 1) (m + 1) (crd - (p - crd * im)) with
        _ | ⟨r0, rest⟩
      · rw [hrest] at hlen; simp at hlen
      · rw [hrest] at ih
        simp only [rowsAux, hrest, List.map_cons, List.dropLast_cons₂]
        exact List.chain'_cons.mpr ⟨hstep, ih⟩

theorem rowsAux_chain_full (im p : ℚ) (him : 0 ≤ im) :
    ∀ (k m : ℕ) (crd : ℚ), crd * im ≤ p → 0 ≤ crdAfter im p crd k →
      List.Chain' (· ≥ ·) (crd :: (rowsAux im p (k + 1) m crd).map Row.crd)
  | 0, m, crd, _, hpos => by
      simp only [rowsAux, List.map_cons, List.map_nil]
      exact List.chain'_cons.mpr ⟨hpos, List.chain'_singleton 0⟩
  | k + 1, m, crd, h, hpos => by
      have hstep : crd - (p - crd * im) ≤ crd := by linarith
      have hnext : (crd - (p - crd * im)) * im ≤ p :=
        le_trans (mul_le_mul_of_nonneg_right hstep him) h
      have hpos' : 0 ≤ crdAfter im p (crd - (p - crd * im)) k := by
        rw [crdAfter_shift]; exact hpos
      have ih := rowsAux_chain_full im p him k (m + 1) _ hnext hpos'
      simp only [rowsAux, List.map_cons]
      exact List.chain'_cons.mpr ⟨hstep, ih⟩

/-- C4: the monthly payment of `tableau_amortissement` equals
`principal / monthCount` rounded to 2 decimals when `|monthlyRate| < 1e-12`,
and otherwise `principal * monthlyRate / (1 - (1+monthlyRate)^(-monthCount))`
rounded to 2 decimals immediately; when the annual rate is 0 the total
interest is 0; and the rounded payment is the payment of every non-final
row. -/
theorem c4_payment_rule (capital taux : ℚ) (duree : ℕ)
    (h1 : 0 < capital) (h2 : 0 < duree) (h3 : 0 ≤ taux) :
    (|taux / 12| < 1 / 10 ^ 12 →
      mensualiteOf capital (12 * duree) (taux / 12) =
        round2 (capital / (12 * duree))) ∧
    (¬ |taux / 12| < 1 / 10 ^ 12 →
      mensualiteOf capital (12 * duree) (taux / 12) =
        round2 (capital * ((taux / 12) /
          (1 - (1 + taux / 12) ^ (-((12 * duree : ℕ) : ℤ)))))) ∧
    (taux = 0 →
      round2 ((((rawRows capital (12 * duree) taux).map roundRow).map
        Row.interets).sum) = 0) ∧
    (∀ j, j + 1 < 12 * duree →
      ((rawRows capital (12 * duree) taux).getD j default).valeurMensualite =
        mensualiteOf capital (12 * duree) (taux / 12)) := by
  refine ⟨?_, ?_, ?_, ?_⟩
  · intro h; rw [mensualiteOf, if_pos h]; congr 1; push_cast; ring
  · intro h; rw [mensualiteOf, if_neg h]
  · intro h
    subst h
    have hz : ∀ x ∈ ((rawRows capital (12 * duree) 0).map roundRow).map
        Row.interets, x = 0 := by
      intro x hx
      simp only [List.map_map, List.mem_map, Function.comp] at hx
      obtain ⟨r, hr, hx⟩ := hx
      rw [rawRows, zero_div] at hr
      rw [← hx, roundRow]
      simp only
      rw [rowsAux_interets_of_zero _ _ _ _ _ hr, round2_zero]
    rw [List.sum_eq_zero hz, round2_zero]
  · intro j hj
    rw [rawRows, rowsAux_getD _ _ _ _ _ _ hj]

/-- C4 witness: the zero-rate scenario `principal = 100000`, `term = 10`. -/
theorem c4_payment_rule_witness :
    mensualiteOf 100000 (12 * 10) ((0 : ℚ) / 12) =
      round2 (100000 / (12 * 10)) :=
  (c4_payment_rule 100000 0 10 (by norm_num) (by norm_num)
    (by norm_num)).1 (by norm_num)

/-- C5 (amended): the month-0 variant `src/loan_core.py` rejects
non-positive capital, non-positive term and negative rate with an error
naming the offending field; the canonical variant
`ProjetActuariat/loan_core.py` validates only the term. -/
theorem c5_validation (capital taux : ℚ) (duree : ℤ) :
    (duree ≤ 0 → tableau_amortissement capital duree taux =
      .error "La durée doit être positive.") ∧
    (capital ≤ 0 → tableau_amortissement_v0 capital duree taux =
      .error "Le capital doit être > 0.") ∧
    (0 < capital → duree ≤ 0 → tableau_amortissement_v0 capital duree taux =
      .error "La durée doit être > 0.") ∧
    (0 < capital → 0 < duree → taux < 0 →
      tableau_amortissement_v0 capital duree taux =
        .error "Le taux annuel doit être >= 0.") := by
  refine ⟨?_, ?_, ?_, ?_⟩
  · intro h
    rw [tableau_amortissement, if_pos (by omega : duree * 12 ≤ 0)]
  · intro h
    rw [tableau_amortissement_v0, if_pos h]
  · intro h1 h2
    rw [tableau_amortissement_v0, if_neg (by linarith), if_pos h2]
  · intro h1 h2 h3
    rw [tableau_amortissement_v0, if_neg (by linarith),
      if_neg (by omega), if_pos h3]

/-- C5 witness: each validation failure at a concrete input. -/
theorem c5_validation_witness :
    tableau_amortissement 1000 0 (5 / 100) =
      .error "La durée doit être positive." ∧
    tableau_amortissement_v0 (-5) 10 (5 / 100) =
      .error "Le capital doit être > 0." ∧
    tableau_amortissement_v0 1000 (-3) (5 / 100) =
      .error "La durée doit être > 0." ∧
    tableau_amortissement_v0 1000 10 (-1 / 100) =
      .error "Le taux annuel doit être >= 0." :=
  ⟨(c5_validation 1000 (5 / 100) 0).1 (by norm_num),
   (c5_validation (-5) (5 / 100) 10).2.1 (by norm_num),
   (c5_validation 1000 (5 / 100) (-3)).2.2.1 (by norm_num) (by norm_num),
   (c5_validation 1000 (-1 / 100) 10).2.2.2 (by norm_num) (by norm_num)
     (by norm_num)⟩

/-- C5 counterexample: the canonical variant accepts a non-positive
principal (−1) without any error, so `computeSchedule` does not fail for
every non-positive principal. -/
theorem c5_counterexample :
    ((-1 : ℚ) ≤ 0) ∧ isOkB (tableau_amortissement (-1) 1 0) = true := by
  exact ⟨by norm_num, by decide⟩

/-- C6 (amended): for valid inputs, provided the rounded monthly payment is
at least the interest on the initial balance, the remaining-balance column
is non-increasing through the penultimate row; if moreover the penultimate
balance is nonnegative, the whole column (raw and as rounded for display)
is non-increasing. -/
theorem c6_monotone_balance (capital taux : ℚ) (duree : ℕ)
    (h1 : 0 < capital) (h2 : 0 < duree) (h3 : 0 ≤ taux)
    (hp : capital * (taux / 12) ≤ mensualiteOf capital (12 * duree) (taux / 12)) :
    List.Chain' (· ≥ ·)
      (((rawRows capital (12 * duree) taux).map Row.crd).dropLast) ∧
    (0 ≤ crdAfter (taux / 12) (mensualiteOf capital (12 * duree) (taux / 12))
        capital (12 * duree - 1) →
      List.Chain' (· ≥ ·) ((rawRows capital (12 * duree) taux).map Row.crd) ∧
      List.Chain' (· ≥ ·)
        (((rawRows capital (12 * duree) taux).map roundRow).map Row.crd)) := by
  have him : (0 : ℚ) ≤ taux / 12 := by positivity
  constructor
  · exact (rowsAux_chain_dropLast _ _ him (12 * duree) 1 capital hp).tail
  · intro hpen
    obtain ⟨k, hk⟩ : ∃ k, 12 * duree = k + 1 := ⟨12 * duree - 1, by omega⟩
    rw [hk] at hp hpen ⊢
    rw [show k + 1 - 1 = k from by omega] at hpen
    have hraw : List.Chain' (· ≥ ·)
        ((rawRows capital (k + 1) taux).map Row.crd) := by
      rw [rawRows]
      exact (rowsAux_chain_full _ _ him k 1 capital hp hpen).tail
    refine ⟨hraw, ?_⟩
    have hmm : ((rawRows capital (k + 1) taux).map roundRow).map Row.crd =
        ((rawRows capital (k + 1) taux).map Row.crd).map round2 := by
      simp [List.map_map, Function.comp, roundRow]
    rw [hmm]
    exact (List.chain'_map round2).mpr (hraw.imp fun a b hab => round2_mono hab)

theorem crdAfter_zero_rate (p crd : ℚ) :
    ∀ k : ℕ, crdAfter 0 p crd k = crd - k * p
  | 0 => by simp [crdAfter]
  | k + 1 => by
      simp only [crdAfter, crdAfter_zero_rate p crd k]
      push_cast
      ring

theorem crdAfter_one_rate (p crd : ℚ) :
    ∀ k : ℕ, crdAfter 1 p crd k = crd * 2 ^ k - p * (2 ^ k - 1)
  | 0 => by simp [crdAfter]
  | k + 1 => by
      simp only [crdAfter, crdAfter_one_rate p crd k, pow_succ]
      ring

theorem chain_ge_getD :
    ∀ (l : List ℚ), List.Chain' (· ≥ ·) l → ∀ j, j + 1 < l.length →
      l.getD (j + 1) 0 ≤ l.getD j 0
  | [], _, j, hj => by simp at hj
  | [a], _, j, hj => by simp at hj
  | a :: b :: l, h, 0, _ => by
      simpa using (List.chain'_cons.mp h).1
  | a :: b :: l, h, j + 1, hj => by
      simp only [List.getD_cons_succ]
      exact chain_ge_getD (b :: l) (List.chain'_cons.mp h).2 j
        (by simpa using hj)

theorem getD_map_crd :
    ∀ (l : List Row) (j : ℕ), j < l.length →
      (l.map Row.crd).getD j 0 = (l.getD j default).crd
  | [], j, h => by simp at h
  | r :: l, 0, _ => by simp
  | r :: l, j + 1, h => by
      simp only [List.map_cons, List.getD_cons_succ]
      exact getD_map_crd l j (by simpa using h)

/-- C6 witness: a zero-rate loan (1200 over 1 year) has a non-increasing
balance column. -/
theorem c6_monotone_balance_witness :
    List.Chain' (· ≥ ·) ((rawRows 1200 (12 * 1) 0).map Row.crd) :=
  ((c6_monotone_balance 1200 0 1 (by norm_num) (by norm_num) (by norm_num)
    (by norm_num [mensualiteOf, round2, round_eq])).2
    (by
      have h100 : mensualiteOf 1200 (12 * 1) ((0 : ℚ) / 12) = 100 := by
        norm_num [mensualiteOf, round2, round_eq]
      rw [h100, show ((0 : ℚ) / 12) = 0 from by norm_num,
        crdAfter_zero_rate]
      norm_num)).1

/-- C6 counterexample: at the valid input `capital = 4.004`, `term = 1`,
`annualRate = 12` the rounded payment (4.00) is below the first month's
interest (4.004), so the displayed remaining-balance column increases. -/
theorem c6_counterexample :
    (0 : ℚ) < 1001 / 250 ∧ (0 : ℕ) < 1 ∧ (0 : ℚ) ≤ 12 ∧
    ¬ List.Chain' (· ≥ ·)
      (((rawRows (1001 / 250) (12 * 1) 12).map roundRow).map Row.crd) := by
  refine ⟨by norm_num, by norm_num, by norm_num, fun h => ?_⟩
  have hlen0 : (rawRows (1001 / 250) (12 * 1) 12).length = 12 * 1 := by
    rw [rawRows]; exact rowsAux_length _ _ _ _ _
  have hcol : ∀ j, j < 12 * 1 →
      ((((rawRows (1001 / 250) (12 * 1) 12).map roundRow).map Row.crd).getD
        j 0) =
        round2 (((rawRows (1001 / 250) (12 * 1) 12).getD j default).crd) := by
    intro j hj
    rw [getD_map_crd _ _ (by rw [List.length_map, hlen0]; exact hj),
      getD_map_roundRow _ _ (by rw [hlen0]; exact hj)]
    rfl
  have hlen : (((rawRows (1001 / 250) (12 * 1) 12).map roundRow).map
      Row.crd).length = 12 * 1 := by
    rw [List.length_map, List.length_map, hlen0]
  have h01 := chain_ge_getD _ h 0 (by rw [hlen]; norm_num)
  rw [hcol 0 (by norm_num), hcol 1 (by norm_num), rawRows,
    rowsAux_getD _ _ (12 * 1) 0 1 (1001 / 250) (by norm_num),
    rowsAux_getD _ _ (12 * 1) 1 1 (1001 / 250) (by norm_num)] at h01
  dsimp only at h01
  rw [show (12 : ℚ) / 12 = 1 from by norm_num,
    show mensualiteOf (1001 / 250) (12 * 1) 1 = 4 from by
      norm_num [mensualiteOf, round2, round_eq],
    crdAfter_one_rate, crdAfter_one_rate] at h01
  norm_num [round2, round_eq] at h01

/-- C1: for valid inputs the schedule has exactly `12 * term` rows, the
final row's remaining balance is exactly 0 (raw and rounded), the final
payment is recomputed as that month's interest plus the entire prior
remaining balance, the raw principal portions sum exactly to the
principal, and the rounded principal portions sum to the principal within
`0.01` per row. -/
theorem c1_schedule_properties (capital taux : ℚ) (duree : ℕ)
    (h1 : 0 < capital) (h2 : 0 < duree) (h3 : 0 ≤ taux) :
    (rawRows capital (12 * duree) taux).length = 12 * duree ∧
    ((rawRows capital (12 * duree) taux).getD (12 * duree - 1) default).crd
      = 0 ∧
    (((rawRows capital (12 * duree) taux).map roundRow).getD (12 * duree - 1)
      default).crd = 0 ∧
    ((rawRows capital (12 * duree) taux).getD (12 * duree - 1)
        default).valeurMensualite =
      ((rawRows capital (12 * duree) taux).getD (12 * duree - 1)
        default).interets +
      ((rawRows capital (12 * duree) taux).getD (12 * duree - 1)
        default).capitalRemb ∧
    ((rawRows capital (12 * duree) taux).getD (12 * duree - 1)
        default).interets =
      ((rawRows capital (12 * duree) taux).getD (12 * duree - 1)
        default).capitalRemb * (taux / 12) ∧
    ((rawRows capital (12 * duree) taux).getD (12 * duree - 1)
        default).capitalRemb =
      ((rawRows capital (12 * duree) taux).getD (12 * duree - 2)
        default).crd ∧
    ((rawRows capital (12 * duree) taux).map Row.capitalRemb).sum = capital ∧
    |(((rawRows capital (12 * duree) taux).map roundRow).map
        Row.capitalRemb).sum - capital| ≤
      ((12 * duree : ℕ) : ℚ) * (1 / 100) := by
  obtain ⟨k, hk⟩ : ∃ k, 12 * duree = k + 1 := ⟨12 * duree - 1, by omega⟩
  have hk1 : 1 ≤ k := by omega
  rw [hk]
  rw [show k + 1 - 1 = k from by omega, show k + 1 - 2 = k - 1 from by omega]
  have hlast := rowsAux_getD_last (taux / 12)
    (mensualiteOf capital (k + 1) (taux / 12)) k 1 capital
  have hpen := rowsAux_getD (taux / 12)
    (mensualiteOf capital (k + 1) (taux / 12)) (k + 1) (k - 1) 1 capital
    (by omega)
  have hlen : (rawRows capital (k + 1) taux).length = k + 1 := by
    rw [rawRows]; exact rowsAux_length _ _ _ _ _
  refine ⟨hlen, ?_, ?_, ?_, ?_, ?_, ?_, ?_⟩
  · rw [rawRows, hlast]
  · rw [getD_map_roundRow _ _ (by rw [hlen]; omega), rawRows, hlast,
      roundRow]
    simp only
    exact round2_zero
  · rw [rawRows, hlast]
  · rw [rawRows, hlast]
  · rw [rawRows, hlast, hpen]
    simp only
    rw [show k - 1 + 1 = k from by omega]
  · rw [rawRows]
    exact rowsAux_sum_remb _ _ _ _ _
  · have hb := sum_map_round2 ((rawRows capital (k + 1) taux).map
      Row.capitalRemb)
    have hsum : ((rawRows capital (k + 1) taux).map Row.capitalRemb).sum
        = capital := by
      rw [rawRows]; exact rowsAux_sum_remb _ _ _ _ _
    rw [List.length_map, hlen, hsum] at hb
    have hmm : ((rawRows capital (k + 1) taux).map roundRow).map
        Row.capitalRemb =
        ((rawRows capital (k + 1) taux).map Row.capitalRemb).map round2 := by
      simp [List.map_map, Function.comp, roundRow]
    rw [hmm]
    refine le_trans hb ?_
    have hcast : (0 : ℚ) ≤ ((k + 1 : ℕ) : ℚ) := by positivity
    rw [mul_comm ((k + 1 : ℕ) : ℚ) (1 / 200), mul_comm ((k + 1 : ℕ) : ℚ)
      (1 / 100)]
    exact mul_le_mul_of_nonneg_right (by norm_num) hcast

/-- C1 witness: the raw principal portions of the 1-year zero-rate loan on
1200 sum exactly to 1200. -/
theorem c1_schedule_properties_witness :
    ((rawRows 1200 (12 * 1) 0).map Row.capitalRemb).sum = 1200 :=
  (c1_schedule_properties 1200 0 1 (by norm_num) (by norm_num)
    (by norm_num)).2.2.2.2.2.2.1

/-! ### Facts about the mortality conversion -/

theorem exp_neg_muOf (q : ℝ) :
    Real.exp (-muOf q) = max (1 / 10 ^ 15) (1 - q) := by
  rw [muOf, neg_neg]
  exact Real.exp_log (lt_of_lt_of_le (by norm_num) (le_max_left _ _))

theorem muOf_nonneg {q : ℝ} (hq : 0 ≤ q) : 0 ≤ muOf q := by
  rw [muOf]
  have h1 : max (1 / 10 ^ 15 : ℝ) (1 - q) ≤ 1 :=
    max_le (by norm_num) (by linarith)
  have h0 : (0 : ℝ) ≤ max (1 / 10 ^ 15) (1 - q) :=
    le_trans (by norm_num) (le_max_left _ _)
  linarith [Real.log_nonpos h0 h1]

theorem sum_range_sub_exp (S : ℝ) (f : ℕ → ℝ) :
    ∀ n : ℕ, ((List.range n).map (fun m => S * (f m - f (m + 1)))).sum =
      S * (f 0 - f n)
  | 0 => by simp
  | n + 1 => by
      rw [List.range_succ, List.map_append, List.sum_append,
        sum_range_sub_exp S f n]
      simp only [List.map_cons, List.map_nil, List.sum_cons, List.sum_nil]
      ring

theorem yearDeathProbs_sum (S q : ℝ) :
    (yearDeathProbs S q).sum = S * (1 - Real.exp (-muOf q)) := by
  have hmap : yearDeathProbs S q = (List.range 12).map
      (fun m => S * ((fun k : ℕ => Real.exp (-muOf q * k / 12)) m -
        (fun k : ℕ => Real.exp (-muOf q * k / 12)) (m + 1))) := by
    rw [yearDeathProbs]
    apply List.map_congr_left
    intro m _
    simp only [Nat.cast_add, Nat.cast_one]
  rw [hmap, sum_range_sub_exp]
  have h0 : -muOf q * ((0 : ℕ) : ℝ) / 12 = 0 := by norm_num
  have h12 : -muOf q * ((12 : ℕ) : ℝ) / 12 = -muOf q := by push_cast; ring
  rw [h0, h12, Real.exp_zero]

/-- C2 (amended): for an annual probability `q ∈ [0, 1]` with
`1 - q ≥ 1e-15` (the clamp threshold in the source), the twelve monthly
death probabilities of the year plus the next year's starting survival
`S * (1 - q)` sum back exactly to the starting survival `S`. -/
theorem c2_year_conservation (S q : ℝ) (hq0 : 0 ≤ q) (hq1 : q ≤ 1)
    (hclamp : 1 / 10 ^ 15 ≤ 1 - q) :
    (yearDeathProbs S q).sum + S * (1 - q) = S := by
  rw [yearDeathProbs_sum, exp_neg_muOf, max_eq_right hclamp]
  ring

/-- C2 witness: conservation at `S = 1/2`, `q = 1/2`. -/
theorem c2_year_conservation_witness :
    (yearDeathProbs (1 / 2) (1 / 2)).sum + (1 / 2 : ℝ) * (1 - 1 / 2) =
      1 / 2 :=
  c2_year_conservation (1 / 2) (1 / 2) (by norm_num) (by norm_num)
    (by norm_num)

/-- C2 counterexample: at `q = 1 ∈ [0, 1]` (starting survival `S = 1`) the
clamp `max(1e-15, 1-q)` makes the monthly death probabilities sum to
`1 - 1e-15`, so together with the next year's survival (0) they do not sum
back to 1. -/
theorem c2_counterexample :
    (0 : ℝ) ≤ 1 ∧ (1 : ℝ) ≤ 1 ∧
    (monthly_death_probs_from_annual_q [1]).sum + 1 * (1 - 1) ≠ 1 := by
  refine ⟨by norm_num, le_rfl, ?_⟩
  have h : monthly_death_probs_from_annual_q [1] = yearDeathProbs 1 1 := by
    rw [monthly_death_probs_from_annual_q, deathProbsAux, deathProbsAux,
      List.append_nil]
  rw [h, yearDeathProbs_sum, exp_neg_muOf,
    max_eq_left (by norm_num : (1 : ℝ) - 1 ≤ 1 / 10 ^ 15)]
  norm_num

theorem exp_step_antitone {mu : ℝ} (hmu : 0 ≤ mu) {a b : ℝ} (hab : a ≤ b) :
    Real.exp (-mu * b / 12) ≤ Real.exp (-mu * a / 12) := by
  apply Real.exp_le_exp.mpr
  have h := mul_le_mul_of_nonneg_left hab hmu
  linarith

theorem yearDeathProbs_nonneg (S q : ℝ) (hS : 0 ≤ S) (hq : 0 ≤ q) :
    ∀ x ∈ yearDeathProbs S q, 0 ≤ x := by
  intro x hx
  obtain ⟨m, _, rfl⟩ := List.mem_map.mp hx
  have hmu := muOf_nonneg hq
  have hle := exp_step_antitone hmu
    (show (m : ℝ) ≤ (m : ℝ) + 1 by linarith)
  exact mul_nonneg hS (by linarith)

theorem deathProbsAux_nonneg :
    ∀ (qs : List ℝ) (S : ℝ), 0 ≤ S → (∀ q ∈ qs, 0 ≤ q ∧ q ≤ 1) →
      ∀ x ∈ deathProbsAux qs S, 0 ≤ x
  | [], S, _, _, x, hx => by simp [deathProbsAux] at hx
  | q :: qs, S, hS, hq, x, hx => by
      rw [deathProbsAux, List.mem_append] at hx
      have hq0 := (hq q (by simp)).1
      have hq1 := (hq q (by simp)).2
      rcases hx with hx | hx
      · exact yearDeathProbs_nonneg S q hS hq0 x hx
      · exact deathProbsAux_nonneg qs (S * (1 - q))
          (mul_nonneg hS (by linarith)) (fun p hp => hq p (by simp [hp])) x hx

theorem yearSurvival_bounds (S q : ℝ) (hS0 : 0 ≤ S) (hq : 0 ≤ q) :
    ∀ x ∈ yearSurvival S q, 0 ≤ x ∧ x ≤ S := by
  intro x hx
  obtain ⟨j, _, rfl⟩ := List.mem_map.mp hx
  have hmu := muOf_nonneg hq
  have hexp0 : (0 : ℝ) < Real.exp (-muOf q * (j : ℝ) / 12) := Real.exp_pos _
  have hexp1 : Real.exp (-muOf q * (j : ℝ) / 12) ≤ 1 := by
    rw [Real.exp_le_one_iff]
    have h := mul_nonneg hmu (Nat.cast_nonneg j)
    linarith
  refine ⟨mul_nonneg hS0 hexp0.le, ?_⟩
  calc S * Real.exp (-muOf q * (j : ℝ) / 12) ≤ S * 1 :=
        mul_le_mul_of_nonneg_left hexp1 hS0
    _ = S := mul_one S

theorem survAux_bounds :
    ∀ (qs : List ℝ) (S : ℝ), 0 ≤ S → (∀ q ∈ qs, 0 ≤ q ∧ q ≤ 1) →
      ∀ x ∈ survAux qs S, 0 ≤ x ∧ x ≤ S
  | [], S, _, _, x, hx => by simp [survAux] at hx
  | q :: qs, S, hS, hq, x, hx => by
      rw [survAux, List.mem_append] at hx
      have hq0 := (hq q (by simp)).1
      have hq1 := (hq q (by simp)).2
      rcases hx with hx | hx
      · exact yearSurvival_bounds S q hS hq0 x hx
      · have hS' : 0 ≤ S * (1 - q) := mul_nonneg hS (by linarith)
        have hb := survAux_bounds qs (S * (1 - q)) hS'
          (fun p hp => hq p (by simp [hp])) x hx
        refine ⟨hb.1, le_trans hb.2 ?_⟩
        calc S * (1 - q) ≤ S * 1 :=
              mul_le_mul_of_nonneg_left (by linarith) hS
          _ = S := mul_one S

theorem survAux_pos :
    ∀ (qs : List ℝ) (S : ℝ), 0 < S → (∀ q ∈ qs, q < 1) →
      ∀ x ∈ survAux qs S, 0 < x
  | [], S, _, _, x, hx => by simp [survAux] at hx
  | q :: qs, S, hS, hq, x, hx => by
      rw [survAux, List.mem_append] at hx
      rcases hx with hx | hx
      · obtain ⟨j, _, rfl⟩ := List.mem_map.mp hx
        exact mul_pos hS (Real.exp_pos _)
      · have hq1 := hq q (by simp)
        exact survAux_pos qs (S * (1 - q))
          (mul_pos hS (by linarith)) (fun p hp => hq p (by simp [hp])) x hx

theorem yearSurvival_chain (S q : ℝ) (hS : 0 ≤ S) (hq : 0 ≤ q) :
    List.Chain' (· ≥ ·) (yearSurvival S q) := by
  rw [yearSurvival, List.chain'_map,
    show (12 : ℕ) = Nat.succ 11 from rfl, List.chain'_range_succ]
  intro m _
  have hmu := muOf_nonneg hq
  have hle := exp_step_antitone hmu
    (show (m : ℝ) ≤ ((m.succ : ℕ) : ℝ) by push_cast; linarith)
  exact mul_le_mul_of_nonneg_left hle hS

theorem yearSurvival_getLast (S q : ℝ) :
    (yearSurvival S q).getLast? =
      some (S * Real.exp (-muOf q * ((11 : ℕ) : ℝ) / 12)) := by
  rw [yearSurvival, show (12 : ℕ) = 11 + 1 from rfl, List.range_succ,
    List.map_append, List.map_cons, List.map_nil, List.getLast?_concat]

theorem survAux_chain :
    ∀ (qs : List ℝ) (S : ℝ), 0 ≤ S → (∀ q ∈ qs, 0 ≤ q ∧ q ≤ 1) →
      List.Chain' (· ≥ ·) (survAux qs S)
  | [], S, _, _ => by simp [survAux]
  | q :: qs, S, hS, hq => by
      rw [survAux, List.chain'_append]
      have hq0 := (hq q (by simp)).1
      have hq1 := (hq q (by simp)).2
      have hS' : 0 ≤ S * (1 - q) := mul_nonneg hS (by linarith)
      refine ⟨yearSurvival_chain S q hS hq0,
        survAux_chain qs (S * (1 - q)) hS'
          (fun p hp => hq p (by simp [hp])), ?_⟩
      intro x hx y hy
      rw [yearSurvival_getLast, Option.mem_def, Option.some_inj] at hx
      subst hx
      have hmu := muOf_nonneg hq0
      have hstep1 : S * (1 - q) ≤ S * Real.exp (-muOf q) := by
        apply mul_le_mul_of_nonneg_left _ hS
        rw [exp_neg_muOf]
        exact le_max_right _ _
      have hstep2 : S * Real.exp (-muOf q) ≤
          S * Real.exp (-muOf q * ((11 : ℕ) : ℝ) / 12) := by
        apply mul_le_mul_of_nonneg_left _ hS
        apply Real.exp_le_exp.mpr
        have h := mul_nonneg hmu (show (0 : ℝ) ≤ ((11 : ℕ) : ℝ) by norm_num)
        push_cast
        nlinarith [hmu]
      have hylt : y ≤ S * (1 - q) := by
        rcases qs with _ | ⟨q', qs'⟩
        · simp [survAux] at hy
        · rw [survAux, yearSurvival, show (12 : ℕ) = 11 + 1 from rfl,
            List.range_succ_eq_map, List.map_cons, List.cons_append,
            List.head?_cons, Option.mem_def, Option.some_inj] at hy
          subst hy
          have hq0' := (hq q' (by simp)).1
          have hexp1 : Real.exp (-muOf q' * ((0 : ℕ) : ℝ) / 12) ≤ 1 := by
            rw [Real.exp_le_one_iff]
            norm_num
          calc S * (1 - q) * Real.exp (-muOf q' * ((0 : ℕ) : ℝ) / 12) ≤
              S * (1 - q) * 1 := mul_le_mul_of_nonneg_left hexp1 hS'
            _ = S * (1 - q) := mul_one _
      exact le_trans hylt (le_trans hstep1 hstep2)

/-- C10 (amended): for annual probabilities q ∈ [0,1], every monthly death
probability is ≥ 0, every survival-to-start value lies in [0, 1] (strictly
positive when every q < 1), and the survival-to-start sequence is
non-increasing across the whole term, including year boundaries. -/
theorem c10_invariants (qs : List ℝ) (hq : ∀ q ∈ qs, 0 ≤ q ∧ q ≤ 1) :
    (∀ x ∈ monthly_death_probs_from_annual_q qs, 0 ≤ x) ∧
    (∀ x ∈ monthly_survival_to_month_start_from_annual_q qs,
      0 ≤ x ∧ x ≤ 1) ∧
    ((∀ q ∈ qs, q < 1) →
      ∀ x ∈ monthly_survival_to_month_start_from_annual_q qs, 0 < x) ∧
    List.Chain' (· ≥ ·) (monthly_survival_to_month_start_from_annual_q qs) :=
  ⟨deathProbsAux_nonneg qs 1 (by norm_num) hq,
   survAux_bounds qs 1 (by norm_num) hq,
   fun hlt => survAux_pos qs 1 (by norm_num) hlt,
   survAux_chain qs 1 (by norm_num) hq⟩

/-- C10 witness: the survival sequence for one year at `q = 1/2` is
non-increasing. -/
theorem c10_invariants_witness :
    List.Chain' (· ≥ ·)
      (monthly_survival_to_month_start_from_annual_q [(1 / 2 : ℝ)]) :=
  (c10_invariants [1 / 2] (by
    intro q hq
    rw [List.mem_singleton] at hq
    subst hq
    norm_num)).2.2.2

/-- C10 counterexample: with `q = 1` in the first year (allowed by the
claim's range [0,1]) the second year's survival-to-start values are 0, not
in the claimed interval (0, 1]. -/
theorem c10_counterexample :
    (0 : ℝ) ∈ monthly_survival_to_month_start_from_annual_q [1, 1] ∧
    ¬ (0 < (0 : ℝ)) := by
  refine ⟨?_, by norm_num⟩
  rw [monthly_survival_to_month_start_from_annual_q, survAux,
    List.mem_append]
  right
  rw [survAux, List.mem_append]
  left
  rw [yearSurvival, List.mem_map]
  exact ⟨0, by simp, by norm_num⟩

theorem deathProbsAux_length :
    ∀ (qs : List ℝ) (S : ℝ),
      (deathProbsAux qs S).length = 12 * qs.length
  | [], S => by simp [deathProbsAux]
  | q :: qs, S => by
      rw [deathProbsAux, List.length_append, deathProbsAux_length qs]
      simp only [yearDeathProbs, List.length_map, List.length_range,
        List.length_cons]
      ring

theorem survAux_length :
    ∀ (qs : List ℝ) (S : ℝ), (survAux qs S).length = 12 * qs.length
  | [], S => by simp [survAux]
  | q :: qs, S => by
      rw [survAux, List.length_append, survAux_length qs]
      simp only [yearSurvival, List.length_map, List.length_range,
        List.length_cons]
      ring

/-- C8 (amended): the two converters perform no input validation and never
fail — on every input list of n years (the empty list and q values outside
[0, 1] included) they return normally a sequence of length exactly 12n,
built by concatenating the 12-month block of each year in order. -/
theorem c8_no_validation (qs : List ℝ) :
    (monthly_death_probs_from_annual_q qs).length = 12 * qs.length ∧
    (monthly_survival_to_month_start_from_annual_q qs).length =
      12 * qs.length ∧
    (∀ (q : ℝ) (rest : List ℝ) (S : ℝ),
      deathProbsAux (q :: rest) S =
        yearDeathProbs S q ++ deathProbsAux rest (S * (1 - q)) ∧
      survAux (q :: rest) S =
        yearSurvival S q ++ survAux rest (S * (1 - q))) :=
  ⟨deathProbsAux_length qs 1, survAux_length qs 1,
   fun _ _ _ => ⟨rfl, rfl⟩⟩

/-- C8 counterexample: on the empty list and on `q = 2 ∉ [0, 1]` both
converters return normally (length 0 and 12 respectively) instead of
failing — the source has no failure path at all. -/
theorem c8_counterexample :
    monthly_death_probs_from_annual_q [] = [] ∧
    monthly_survival_to_month_start_from_annual_q [] = [] ∧
    (monthly_death_probs_from_annual_q [2]).length = 12 ∧
    (monthly_survival_to_month_start_from_annual_q [2]).length = 12 := by
  refine ⟨rfl, rfl, ?_, ?_⟩
  · rw [monthly_death_probs_from_annual_q, deathProbsAux_length]
    norm_num
  · rw [monthly_survival_to_month_start_from_annual_q, survAux_length]
    norm_num

/-! ### Facts about the present-value sums -/

theorem enumF_mem {α : Type} :
    ∀ (l : List α) (s : ℕ) (x : ℕ × α), x ∈ enumF s l → x.2 ∈ l
  | [], _, x, h => by simp [enumF] at h
  | a :: l, s, x, h => by
      rw [enumF, List.mem_cons] at h
      rcases h with h | h
      · subst h; simp
      · exact List.mem_cons_of_mem a (enumF_mem l (s + 1) x h)

theorem pvAux (i : ℝ) :
    ∀ (l : List ℝ) (s : ℕ),
      ((enumF s l).map fun x => (1 + i) ^ (-(x.1 : ℝ) / 12) * x.2).sum =
        ∑ j ∈ Finset.range l.length,
          (1 + i) ^ (-(((s + j : ℕ) : ℕ) : ℝ) / 12) * l.getD j 0
  | [], s => by simp [enumF]
  | a :: l, s => by
      rw [enumF, List.map_cons, List.sum_cons, pvAux i l (s + 1),
        List.length_cons, Finset.sum_range_succ']
      simp only [List.getD_cons_succ, List.getD_cons_zero, Nat.add_zero]
      rw [add_comm]
      congr 1
      apply Finset.sum_congr rfl
      intro j _
      rw [show s + 1 + j = s + (j + 1) from by omega]

theorem spAux (i : ℝ) :
    ∀ (l : List (ℝ × ℝ)) (s : ℕ),
      ((enumF s l).map fun x =>
        (1 + i) ^ (-(x.1 : ℝ) / 12) * x.2.2 * x.2.1).sum =
        ∑ j ∈ Finset.range l.length,
          (1 + i) ^ (-(((s + j : ℕ) : ℕ) : ℝ) / 12) * (l.getD j (0, 0)).2 *
            (l.getD j (0, 0)).1
  | [], s => by simp [enumF]
  | a :: l, s => by
      rw [enumF, List.map_cons, List.sum_cons, spAux i l (s + 1),
        List.length_cons, Finset.sum_range_succ']
      simp only [List.getD_cons_succ, List.getD_cons_zero, Nat.add_zero]
      rw [add_comm]
      congr 1
      apply Finset.sum_congr rfl
      intro j _
      rw [show s + 1 + j = s + (j + 1) from by omega]

theorem zip_getD :
    ∀ (l1 l2 : List ℝ) (j : ℕ), j < l1.length → j < l2.length →
      (l1.zip l2).getD j (0, 0) = (l1.getD j 0, l2.getD j 0)
  | [], _, j, h1, _ => by simp at h1
  | a :: l1, [], j, _, h2 => by simp at h2
  | a :: l1, b :: l2, 0, _, _ => by simp [List.zip_cons_cons]
  | a :: l1, b :: l2, j + 1, h1, h2 => by
      simp only [List.zip_cons_cons, List.getD_cons_succ]
      exact zip_getD l1 l2 j (by simpa using h1) (by simpa using h2)

/-- C3: with equal-length inputs, `single_premium_monthly` returns exactly
the sum over `m = 1..N` of
`(1+annualTechRate)^(−m/12) * deathProbMonth[m] * balanceEndOfMonth[m]`,
and when every death probability is 0 the single premium is 0 for every
technical rate. -/
theorem c3_single_premium (crd probs : List ℝ) (i : ℝ)
    (h : crd.length = probs.length) :
    single_premium_monthly crd probs i =
      .ok (∑ m ∈ Finset.range crd.length,
        (1 + i) ^ (-((m : ℝ) + 1) / 12) * probs.getD m 0 * crd.getD m 0) ∧
    ((∀ p ∈ probs, p = 0) → single_premium_monthly crd probs i = .ok 0) := by
  have hne : ¬ crd.length ≠ probs.length := by omega
  constructor
  · rw [single_premium_monthly, if_neg hne]
    congr 1
    rw [spAux, List.length_zip, ← h, min_self]
    apply Finset.sum_congr rfl
    intro j hj
    rw [zip_getD crd probs j (Finset.mem_range.mp hj)
      (h ▸ Finset.mem_range.mp hj)]
    have hc : (((1 + j : ℕ) : ℕ) : ℝ) = (j : ℝ) + 1 := by push_cast; ring
    rw [hc]
  · intro hp
    rw [single_premium_monthly, if_neg hne]
    congr 1
    apply List.sum_eq_zero
    intro x hx
    obtain ⟨y, hy, rfl⟩ := List.mem_map.mp hx
    have hmem : y.2.2 ∈ probs :=
      (List.of_mem_zip (enumF_mem _ _ _ hy)).2
    rw [hp _ hmem]
    ring

/-- C3 witness: one month, zero death probability, zero rate. -/
theorem c3_single_premium_witness :
    single_premium_monthly [(100 : ℝ)] [0] 0 = .ok 0 :=
  (c3_single_premium [100] [0] 0 (by simp)).2 (by simp)

/-- C7: whenever the balance and death-probability sequences have
different lengths, `single_premium_monthly` fails with the dimension
mismatch error and returns no value. -/
theorem c7_dimension_mismatch (crd probs : List ℝ) (i : ℝ)
    (h : crd.length ≠ probs.length) :
    single_premium_monthly crd probs i =
      .error
        "Dimensions incohérentes: CRD mensuel vs probas décès mensuelles." :=
  by rw [single_premium_monthly, if_pos h]

/-- C7 witness: the spec's mismatch scenario, 240 balances against 180
death probabilities. -/
theorem c7_dimension_mismatch_witness :
    single_premium_monthly (List.replicate 240 (0 : ℝ))
      (List.replicate 180 0) (35 / 1000) =
      .error
        "Dimensions incohérentes: CRD mensuel vs probas décès mensuelles." :=
  c7_dimension_mismatch _ _ _
    (by rw [List.length_replicate, List.length_replicate]; omega)

/-- C9: for a non-empty year list the survival-to-start sequence starts at
exactly 1, and `pv_monthly_premiums_due` returns the annuity-due sum
`Σ (1+i)^(−idx/12) * survivalToStart[idx]` over `idx = 0..N−1`, whose
first term is discounted by `(1+i)^0 = 1`. -/
theorem c9_annuity_due (qs : List ℝ) (i : ℝ) (hne : qs ≠ []) :
    (monthly_survival_to_month_start_from_annual_q qs).getD 0 0 = 1 ∧
    pv_monthly_premiums_due
        (monthly_survival_to_month_start_from_annual_q qs) i =
      ∑ j ∈ Finset.range
          (monthly_survival_to_month_start_from_annual_q qs).length,
        (1 + i) ^ (-(j : ℝ) / 12) *
          (monthly_survival_to_month_start_from_annual_q qs).getD j 0 := by
  constructor
  · obtain ⟨q, qs', rfl⟩ := List.exists_cons_of_ne_nil hne
    rw [monthly_survival_to_month_start_from_annual_q, survAux,
      yearSurvival, show (12 : ℕ) = 11 + 1 from rfl,
      List.range_succ_eq_map, List.map_cons, List.cons_append,
      List.getD_cons_zero]
    norm_num
  · rw [pv_monthly_premiums_due, pvAux]
    apply Finset.sum_congr rfl
    intro j _
    rw [Nat.zero_add]

/-- C9 witness: a single immortal year at technical rate 0. -/
theorem c9_annuity_due_witness :
    (monthly_survival_to_month_start_from_annual_q [(0 : ℝ)]).getD 0 0 =
      1 :=
  (c9_annuity_due [0] 0 (by simp)).1
